import Mathlib

/-!
Shallow embedding of the translation-bot core (`src/main_V2.py`) and proofs
about it.  Pure functions of the Python source become Lean functions; the
mutable module-level state (translation cache, rate-limiter maps, stats
counters) becomes explicit state passed in and out.  `time.time()` values are
modelled as `Int` (the code only compares differences of timestamps against
constants, so any linearly ordered ring is faithful; `Int` keeps everything
decidable).  Python dicts keyed by user id become total functions with the
`defaultdict` default; the `OrderedDict` of the TTL cache becomes an
association list whose front is the oldest (least recently used) entry and
whose back is the newest.
-/

/-- Statistics counters, mirroring the module-level `stats` dict
(`main_V2.py` lines 113-119). -/
structure Stats where
  translations_total : Nat
  cache_hits : Nat
  rate_limit_blocks : Nat
  errors : Nat
  api_calls : Nat
deriving DecidableEq, Repr

/-- The zero-initialised `stats` dict at process start. -/
def stats0 : Stats := ⟨0, 0, 0, 0, 0⟩

/-- Bounded TTL cache (`class TTLCache`, lines 78-105).  The Python object
keeps an `OrderedDict` of values plus a parallel `dict` of timestamps; every
operation keeps the two key sets identical, so we merge them into one
association list of `(key, value, timestamp)` entries.  List order is the
`OrderedDict` order: front = oldest / least recently used, back = most
recently used. -/
structure TTLCache (K V : Type) where
  cache : List (K × V × Int)
  max_size : Nat
  ttl : Int

/-- The `while len(self._cache) > self.max_size: self._cache.popitem(last=False)`
loop of `TTLCache.set` (lines 100-102): pop the oldest entry while the size
exceeds the capacity. -/
def popWhile (max : Nat) : List α → List α
  | [] => []
  | x :: t => if (x :: t).length > max then popWhile max t else x :: t

/-- `TTLCache.get` (lines 85-93).  A key present but older than `ttl` is
deleted and reported absent (lazy expiry); a live hit is promoted to
most-recently-used (`move_to_end`) and returned.  Deleting a key from a dict
removes its unique entry; on an association list with unique keys this is
`filter` on key difference. -/
def TTLCache.get [DecidableEq K] (c : TTLCache K V) (now : Int) (key : K) :
    Option V × TTLCache K V :=
  match c.cache.find? (fun e => decide (e.1 = key)) with
  | none => (none, c)
  | some e =>
    if now - e.2.2 > c.ttl then
      (none, { c with cache := c.cache.filter (fun e2 => !decide (e2.1 = key)) })
    else
      (some e.2.1,
       { c with cache := c.cache.filter (fun e2 => !decide (e2.1 = key)) ++ [e] })

/-- `TTLCache.set` (lines 95-102).  `move_to_end` (when present) followed by
assignment and a fresh timestamp is, on the merged association list, erasing
the key and appending `(key, value, now)` at the most-recently-used end；
then the capacity loop pops oldest entries while the size exceeds
`max_size`. -/
def TTLCache.set [DecidableEq K] (c : TTLCache K V) (now : Int) (key : K) (v : V) :
    TTLCache K V :=
  { c with
    cache := popWhile c.max_size
      ((c.cache.filter (fun e2 => !decide (e2.1 = key))) ++ [(key, v, now)]) }

/-- Cache capacity constant `CACHE_MAX_SIZE` (line 41). -/
def CACHE_MAX_SIZE : Nat := 2000

/-- Cache TTL constant `CACHE_TTL_SECONDS` (line 42). -/
def CACHE_TTL_SECONDS : Int := 3600

/-- One cache operation, for reasoning about arbitrary operation sequences. -/
inductive CacheOp (K V : Type) where
  | get (t : Int) (k : K)
  | set (t : Int) (k : K) (v : V)

/-- Apply one operation to a cache, keeping only the resulting state. -/
def applyOp [DecidableEq K] (c : TTLCache K V) : CacheOp K V → TTLCache K V
  | .get t k => (TTLCache.get c t k).2
  | .set t k v => TTLCache.set c t k v

/-- Run a sequence of cache operations from a starting state. -/
def runOps [DecidableEq K] (c : TTLCache K V) (ops : List (CacheOp K V)) :
    TTLCache K V :=
  ops.foldl applyOp c

-- Basic facts about `popWhile`.

theorem popWhile_length_le (max : Nat) (l : List α) : (popWhile max l).length ≤ max := by
  induction l with
  | nil => simp [popWhile]
  | cons x t ih =>
    rw [popWhile]
    split
    · exact ih
    · omega

theorem popWhile_eq_drop (max : Nat) (l : List α) :
    popWhile max l = l.drop (l.length - max) := by
  induction l with
  | nil => simp [popWhile]
  | cons x t ih =>
    rw [popWhile]
    split
    · rename_i h
      have h3 : (x :: t).length > max := h
      simp only [List.length_cons] at h3
      show popWhile max t = List.drop (t.length + 1 - max) (x :: t)
      have h2 : t.length + 1 - max = (t.length - max) + 1 := by omega
      rw [ih, h2, List.drop_succ_cons]
    · rename_i h
      have h3 : ¬ (x :: t).length > max := h
      simp only [List.length_cons] at h3
      show x :: t = List.drop (t.length + 1 - max) (x :: t)
      have h2 : t.length + 1 - max = 0 := by omega
      rw [h2, List.drop_zero]

theorem drop_append_le {l1 l2 : List α} {n : Nat} (h : n ≤ l1.length) :
    (l1 ++ l2).drop n = l1.drop n ++ l2 := by
  induction l1 generalizing n with
  | nil =>
    simp at h
    subst h
    simp
  | cons x t ih =>
    cases n with
    | zero => simp
    | succ m =>
      simp only [List.length_cons] at h
      simp only [List.cons_append, List.drop_succ_cons]
      exact ih (by omega)

theorem TTLCache.set_max_size [DecidableEq K] (c : TTLCache K V) (t : Int) (k : K) (v : V) :
    (c.set t k v).max_size = c.max_size := rfl

theorem TTLCache.set_ttl [DecidableEq K] (c : TTLCache K V) (t : Int) (k : K) (v : V) :
    (c.set t k v).ttl = c.ttl := rfl

/-- After `set`, the key is resident at the most-recently-used end with the
new value and timestamp, provided the capacity is positive (with capacity 0
the eviction loop would immediately evict the fresh entry). -/
theorem set_find [DecidableEq K] (c : TTLCache K V) (t : Int) (k : K) (v : V)
    (h : 0 < c.max_size) :
    (c.set t k v).cache.find? (fun e => decide (e.1 = k)) = some (k, v, t) := by
  show (popWhile c.max_size
      ((c.cache.filter (fun e2 => !decide (e2.1 = k))) ++ [(k, v, t)])).find?
      (fun e => decide (e.1 = k)) = some (k, v, t)
  rw [popWhile_eq_drop]
  have hlen : ((c.cache.filter (fun e2 => !decide (e2.1 = k))) ++ [(k, v, t)]).length
      = (c.cache.filter (fun e2 => !decide (e2.1 = k))).length + 1 := by simp
  rw [hlen]
  rw [drop_append_le (by omega)]
  rw [List.find?_append]
  have h1 : ((c.cache.filter (fun e2 => !decide (e2.1 = k))).drop
      ((c.cache.filter (fun e2 => !decide (e2.1 = k))).length + 1 - c.max_size)).find?
      (fun e => decide (e.1 = k)) = none := by
    rw [List.find?_eq_none]
    intro x hx
    have hxL := List.mem_of_mem_drop hx
    have hpred := (List.mem_filter.mp hxL).2
    simp only [Bool.not_eq_true', decide_eq_false_iff_not] at hpred
    simp [hpred]
  rw [h1]
  simp [List.find?]

/-- Looking up a key in a list from which that key was just filtered out
finds nothing. -/
theorem find_filter_ne [DecidableEq K] (l : List (K × V × Int)) (k : K) :
    (l.filter (fun e2 => !decide (e2.1 = k))).find? (fun e => decide (e.1 = k)) = none := by
  rw [List.find?_eq_none]
  intro x hx
  have hpred := (List.mem_filter.mp hx).2
  simp only [Bool.not_eq_true', decide_eq_false_iff_not] at hpred
  simp [hpred]

/-- C1: a `get(k)` immediately following `set(k, v)`, with less than TTL
seconds elapsed, returns exactly `v` (capacity positive, as in the program,
where the cache is built with capacity 2000); a `get` on an entry whose age
exceeds the TTL returns absent, removes the entry, and any later `get` with
no intervening `set` also returns absent. -/
theorem cache_get_after_set_ttl (c : TTLCache String String) (k v : String) :
    (∀ t1 t2 : Int, 0 < c.max_size → t2 - t1 < c.ttl →
      ((c.set t1 k v).get t2 k).1 = some v)
    ∧ (∀ (w : String) (ts t2 : Int),
      c.cache.find? (fun e => decide (e.1 = k)) = some (k, w, ts) →
      t2 - ts > c.ttl →
      (c.get t2 k).1 = none
      ∧ ((c.get t2 k).2).cache.find? (fun e => decide (e.1 = k)) = none
      ∧ ∀ t3 : Int, (((c.get t2 k).2).get t3 k).1 = none) := by
  constructor
  · intro t1 t2 hmax hlt
    have hf := set_find c t1 k v hmax
    simp only [TTLCache.get, hf, TTLCache.set_ttl]
    rw [if_neg (by omega)]
  · intro w ts t2 hfind hgt
    have h1 : c.get t2 k =
        (none, { c with cache := c.cache.filter (fun e2 => !decide (e2.1 = k)) }) := by
      simp only [TTLCache.get, hfind]
      rw [if_pos hgt]
    refine ⟨by rw [h1], ?_, ?_⟩
    · rw [h1]
      exact find_filter_ne c.cache k
    · intro t3
      rw [h1]
      simp only [TTLCache.get, find_filter_ne]

/-- Concrete TTL cache used to instantiate the C1 theorem: capacity 5,
TTL 1 second, one entry written at time 0. -/
def cW1 : TTLCache String String := ⟨[("k", "w", 0)], 5, 1⟩

/-- Witness for C1: set-then-get within the TTL returns the value; a read of
the entry of age 10 > TTL 1 is absent and stays absent at a later time. -/
theorem cache_get_after_set_ttl_witness :
    ((cW1.set 0 "k" "v").get 0 "k").1 = some "v"
    ∧ (cW1.get 10 "k").1 = none
    ∧ (((cW1.get 10 "k").2).get 99 "k").1 = none := by
  have h := cache_get_after_set_ttl cW1 "k" "v"
  have h2 := h.2 "w" 0 10 (by decide) (by decide)
  exact ⟨h.1 0 0 (by decide) (by decide), h2.1, h2.2.2 99⟩

/-- A `get` never grows the cache: it leaves it unchanged, deletes an expired
entry, or moves a live entry to the most-recently-used end. -/
theorem get_cache_length_le [DecidableEq K] (c : TTLCache K V) (t : Int) (k : K) :
    ((c.get t k).2).cache.length ≤ c.cache.length := by
  cases hf : c.cache.find? (fun e => decide (e.1 = k)) with
  | none => simp [TTLCache.get, hf]
  | some e =>
    have he : e ∈ c.cache := List.mem_of_find?_eq_some hf
    have hp : decide (e.1 = k) = true := by simpa using List.find?_some hf
    have hne : ¬ ((c.cache.filter (fun e2 => !decide (e2.1 = k))).length
        = c.cache.length) := by
      rw [List.filter_length_eq_length]
      push_neg
      refine ⟨e, he, ?_⟩
      simp [hp]
    have hlt : (c.cache.filter (fun e2 => !decide (e2.1 = k))).length
        < c.cache.length :=
      Nat.lt_of_le_of_ne (List.length_filter_le _ _) hne
    simp only [TTLCache.get, hf]
    split
    · exact List.length_filter_le _ _
    · show (c.cache.filter (fun e2 => !decide (e2.1 = k)) ++ [e]).length ≤ c.cache.length
      rw [List.length_append]
      simp only [List.length_cons, List.length_nil]
      omega

theorem applyOp_max_size [DecidableEq K] (c : TTLCache K V) (op : CacheOp K V) :
    (applyOp c op).max_size = c.max_size := by
  cases op with
  | get t k =>
    show ((c.get t k).2).max_size = c.max_size
    unfold TTLCache.get
    cases hf : c.cache.find? (fun e => decide (e.1 = k)) with
    | none => simp [TTLCache.get, hf]
    | some e =>
      simp only [TTLCache.get, hf]
      split
      · rfl
      · rfl
  | set t k v => rfl

theorem applyOp_length_le [DecidableEq K] (c : TTLCache K V) (op : CacheOp K V)
    (h : c.cache.length ≤ c.max_size) :
    (applyOp c op).cache.length ≤ c.max_size := by
  cases op with
  | get t k => exact Nat.le_trans (get_cache_length_le c t k) h
  | set t k v => exact popWhile_length_le _ _

theorem runOps_length_le [DecidableEq K] (ops : List (CacheOp K V)) (c : TTLCache K V)
    (h : c.cache.length ≤ c.max_size) :
    (runOps c ops).cache.length ≤ c.max_size := by
  induction ops generalizing c with
  | nil => exact h
  | cons op rest ih =>
    show (runOps (applyOp c op) rest).cache.length ≤ c.max_size
    have h2 := ih (applyOp c op) (by rw [applyOp_max_size]; exact applyOp_length_le c op h)
    rwa [applyOp_max_size] at h2

/-- C2: starting from the empty cache the program constructs, no sequence of
get/set operations ever leaves more than `max_size` resident entries; when an
insertion of an absent key finds the cache exactly full, the evicted entry is
the front (least-recently-used) one and the new key lands at the
most-recently-used end; and in the fill-to-capacity / read A / insert-one
pattern, A survives (it was promoted by the read) while the
least-recently-touched key B is evicted. -/
theorem cache_capacity_and_lru :
    (∀ (max_size : Nat) (ttl : Int) (ops : List (CacheOp String String)),
      (runOps ⟨[], max_size, ttl⟩ ops).cache.length ≤ max_size)
    ∧ (∀ (c : TTLCache String String) (t : Int) (k v : String),
      c.cache.find? (fun e => decide (e.1 = k)) = none →
      c.cache.length = c.max_size → 0 < c.max_size →
      (c.set t k v).cache = c.cache.tail ++ [(k, v, t)])
    ∧ ((((((TTLCache.mk [] 2 100 : TTLCache String String).set 0 "A" "1").set
          1 "B" "2").get 2 "A").2.set 3 "C" "3").cache.map Prod.fst = ["A", "C"]) := by
  refine ⟨?_, ?_, ?_⟩
  · intro max_size ttl ops
    exact runOps_length_le ops ⟨[], max_size, ttl⟩ (by simp)
  · intro c t k v hfind hlen hpos
    have hfil : c.cache.filter (fun e2 => !decide (e2.1 = k)) = c.cache := by
      rw [List.filter_eq_self]
      intro a ha
      have h2 := List.find?_eq_none.mp hfind a ha
      simpa using h2
    show popWhile c.max_size
        ((c.cache.filter (fun e2 => !decide (e2.1 = k))) ++ [(k, v, t)])
        = c.cache.tail ++ [(k, v, t)]
    rw [hfil, popWhile_eq_drop]
    have hlen2 : (c.cache ++ [(k, v, t)]).length - c.max_size = 1 := by
      rw [List.length_append]
      simp only [List.length_cons, List.length_nil]
      omega
    rw [hlen2, drop_append_le (by omega), List.drop_one]
  · rfl

/-- Concrete full cache (capacity 2, two entries, oldest in front) used to
instantiate the C2 theorem. -/
def cW2 : TTLCache String String := ⟨[("A", "1", 0), ("B", "2", 1)], 2, 100⟩

/-- Witness for C2: three inserts into a capacity-2 cache keep at most two
entries, and inserting a fresh key into the full `cW2` evicts exactly the
oldest entry. -/
theorem cache_capacity_and_lru_witness :
    (runOps ⟨[], 2, 100⟩ [CacheOp.set 0 "x" "1", CacheOp.set 1 "y" "2",
        CacheOp.set 2 "z" "3"]).cache.length ≤ 2
    ∧ (cW2.set 5 "C" "9").cache = [("B", "2", 1), ("C", "9", 5)] := by
  have h := cache_capacity_and_lru
  refine ⟨h.1 2 100 _, ?_⟩
  have h2 := h.2.1 cW2 5 "C" "9" (by decide) (by decide) (by decide)
  rw [h2]
  rfl

/-- Rate-limiter state: `author_cooldowns` is a `defaultdict(float)` (default
0) and `author_translation_count` a `defaultdict(list)` (default `[]`), lines
110-111; both become total functions from user id. -/
structure RL where
  cooldowns : Nat → Int
  counts : Nat → List Int

/-- The empty rate-limiter state at process start. -/
def rl0 : RL := ⟨fun _ => 0, fun _ => []⟩

/-- `check_rate_limit` (lines 122-134), parameterised by the environment
configuration `COOLDOWN_SECONDS` (`cd`) and `MAX_TRANSLATIONS_PER_HOUR`
(`mx`).  Returns the `(bool, reason)` pair together with the rate-limiter
state and stats after the call (the Python function mutates both: it prunes
the user's timestamp list in place and bumps `rate_limit_blocks` on
denial). -/
def check_rate_limit (cd : Int) (mx : Nat) (now : Int) (author_id : Nat)
    (rl : RL) (st : Stats) : (Bool × String) × RL × Stats :=
  if now - rl.cooldowns author_id < cd then
    ((false, "cooldown"), rl,
     { st with rate_limit_blocks := st.rate_limit_blocks + 1 })
  else if mx ≤ ((rl.counts author_id).filter
      (fun ts => decide (ts > now - 3600))).length then
    ((false, "hour limit"),
     { rl with counts := fun b => if b = author_id then
        (rl.counts author_id).filter (fun ts => decide (ts > now - 3600))
       else rl.counts b },
     { st with rate_limit_blocks := st.rate_limit_blocks + 1 })
  else
    ((true, ""),
     { rl with counts := fun b => if b = author_id then
        (rl.counts author_id).filter (fun ts => decide (ts > now - 3600))
       else rl.counts b },
     st)

/-- `update_rate_limit` (lines 137-140): record an accepted translation. -/
def update_rate_limit (now : Int) (author_id : Nat) (rl : RL) : RL :=
  { cooldowns := fun b => if b = author_id then now else rl.cooldowns b,
    counts := fun b => if b = author_id then rl.counts b ++ [now] else rl.counts b }

/-- Rate-limiter state with one stale and two recent accepted translations
for user 1, used as the concrete input of the C3 and C4 counterexamples. -/
def rlC : RL := ⟨fun _ => 0, fun b => if b = 1 then [1, 7000, 8000] else []⟩

/-- Counterexample for C3: at a state where user 1 has exhausted the hourly
quota (2 timestamps inside the trailing hour, quota 2), the check is denied
but the reason string the code returns is "hour limit", not the
"hourly_quota" the claim states. -/
theorem check_reason_counterexample :
    (check_rate_limit 30 2 10000 1 rlC stats0).1 = (false, "hour limit")
    ∧ "hour limit" ≠ "hourly_quota" := by
  constructor
  · rfl
  · decide

/-- Rate-limiter state after two accepted commits of user 1, at times 0 and
2000 (the second beyond the cooldown of the first). -/
def rlS : RL := update_rate_limit 2000 1 (update_rate_limit 0 1 rl0)

/-- C3 (amended): the check is denied with reason "cooldown" iff
`now - last < COOLDOWN_SECONDS`; otherwise the user's timestamps are pruned
to the trailing 3600 seconds and the check is denied with reason
"hour limit" (the code's literal string for the hourly quota) iff the pruned
count reaches the quota, and allowed otherwise.  In particular, with quota 2
and two commits inside the sliding hour a third check is denied with reason
"hour limit", and once the window has slid past the oldest commit a check
succeeds again. -/
theorem check_rate_limit_policy (cd : Int) (mx : Nat) (now : Int) (a : Nat)
    (rl : RL) (st : Stats) :
    ((check_rate_limit cd mx now a rl st).1 = (false, "cooldown")
        ↔ now - rl.cooldowns a < cd)
    ∧ (¬ (now - rl.cooldowns a < cd) →
        (check_rate_limit cd mx now a rl st).2.1.counts a
            = (rl.counts a).filter (fun ts => decide (ts > now - 3600))
        ∧ ((check_rate_limit cd mx now a rl st).1 = (false, "hour limit")
            ↔ mx ≤ ((rl.counts a).filter (fun ts => decide (ts > now - 3600))).length)
        ∧ ((check_rate_limit cd mx now a rl st).1 = (true, "")
            ↔ ((rl.counts a).filter (fun ts => decide (ts > now - 3600))).length < mx))
    ∧ (check_rate_limit 30 2 2040 1 rlS stats0).1 = (false, "hour limit")
    ∧ (check_rate_limit 30 2 3700 1 rlS stats0).1 = (true, "") := by
  refine ⟨?_, ?_, rfl, rfl⟩
  · unfold check_rate_limit
    by_cases hc : now - rl.cooldowns a < cd
    · rw [if_pos hc]
      exact ⟨fun _ => hc, fun _ => rfl⟩
    · rw [if_neg hc]
      by_cases hq : mx ≤ ((rl.counts a).filter (fun ts => decide (ts > now - 3600))).length
      · rw [if_pos hq]
        constructor
        · intro h
          exact absurd (congrArg (fun q => q.2) h) (by simp)
        · intro h
          exact absurd h hc
      · rw [if_neg hq]
        constructor
        · intro h
          exact absurd (congrArg (fun q => q.1) h) (by simp)
        · intro h
          exact absurd h hc
  · intro hc
    unfold check_rate_limit
    rw [if_neg hc]
    by_cases hq : mx ≤ ((rl.counts a).filter (fun ts => decide (ts > now - 3600))).length
    · rw [if_pos hq]
      refine ⟨by simp, ⟨fun _ => hq, fun _ => rfl⟩, ?_⟩
      constructor
      · intro h
        exact absurd (congrArg (fun q => q.1) h) (by simp)
      · intro h
        exact absurd h (by omega)
    · rw [if_neg hq]
      refine ⟨by simp, ?_, ⟨fun _ => by omega, fun _ => rfl⟩⟩
      constructor
      · intro h
        exact absurd (congrArg (fun q => q.1) h) (by simp)
      · intro h
        exact absurd h hq

/-- Witness for C3: after commits at times 0 and 2000, a check at time 3700
(window slid past the oldest commit) prunes the list to `[2000]` and is
allowed. -/
theorem check_rate_limit_policy_witness :
    (check_rate_limit 30 2 3700 1 rlS stats0).2.1.counts 1 = [2000]
    ∧ (check_rate_limit 30 2 3700 1 rlS stats0).1 = (true, "") := by
  have h := check_rate_limit_policy 30 2 3700 1 rlS stats0
  have h2 := h.2.1 (by decide)
  refine ⟨?_, h2.2.2.mpr (by decide)⟩
  rw [h2.1]
  rfl

/-- Counterexample for C4: at a concrete state (user 1 has a stale timestamp
and two in-window ones, quota 2) the call rewrites the user's timestamp list
and increments `rate_limit_blocks`, so the program state is not unchanged. -/
theorem check_not_readonly_counterexample :
    (check_rate_limit 30 2 10000 1 rlC stats0).2.1.counts 1 ≠ rlC.counts 1
    ∧ (check_rate_limit 30 2 10000 1 rlC stats0).2.2 ≠ stats0 := by
  constructor
  · decide
  · decide

/-- C4 (amended): `check_rate_limit` never touches the cooldown map, other
users' timestamp lists, or the translations/cache-hit/error/api counters; its
only mutations are pruning the checked user's timestamp list to the trailing
3600 seconds and incrementing `rate_limit_blocks` exactly when the check is
denied; when the check is allowed the stats are unchanged. -/
theorem check_rate_limit_frame (cd : Int) (mx : Nat) (now : Int) (a : Nat)
    (rl : RL) (st : Stats) :
    (check_rate_limit cd mx now a rl st).2.1.cooldowns = rl.cooldowns
    ∧ (∀ b, b ≠ a → (check_rate_limit cd mx now a rl st).2.1.counts b = rl.counts b)
    ∧ ((check_rate_limit cd mx now a rl st).2.1.counts a = rl.counts a
       ∨ (check_rate_limit cd mx now a rl st).2.1.counts a
           = (rl.counts a).filter (fun ts => decide (ts > now - 3600)))
    ∧ (check_rate_limit cd mx now a rl st).2.2.translations_total = st.translations_total
    ∧ (check_rate_limit cd mx now a rl st).2.2.cache_hits = st.cache_hits
    ∧ (check_rate_limit cd mx now a rl st).2.2.errors = st.errors
    ∧ (check_rate_limit cd mx now a rl st).2.2.api_calls = st.api_calls
    ∧ ((check_rate_limit cd mx now a rl st).1.1 = true →
        (check_rate_limit cd mx now a rl st).2.2 = st)
    ∧ ((check_rate_limit cd mx now a rl st).1.1 = false →
        (check_rate_limit cd mx now a rl st).2.2.rate_limit_blocks
          = st.rate_limit_blocks + 1) := by
  unfold check_rate_limit
  by_cases hc : now - rl.cooldowns a < cd
  · rw [if_pos hc]
    refine ⟨rfl, fun b _ => rfl, Or.inl rfl, rfl, rfl, rfl, rfl, ?_, fun _ => rfl⟩
    intro h
    exact absurd h (by simp)
  · rw [if_neg hc]
    by_cases hq : mx ≤ ((rl.counts a).filter (fun ts => decide (ts > now - 3600))).length
    · rw [if_pos hq]
      refine ⟨rfl, ?_, Or.inr (by simp), rfl, rfl, rfl, rfl, ?_, fun _ => rfl⟩
      · intro b hb
        simp [hb]
      · intro h
        exact absurd h (by simp)
    · rw [if_neg hq]
      refine ⟨rfl, ?_, Or.inr (by simp), rfl, rfl, rfl, rfl, fun _ => rfl, ?_⟩
      · intro b hb
        simp [hb]
      · intro h
        exact absurd h (by simp)

/-- Witness for C4 (amended): at the counterexample state the cooldown map is
untouched and the denied check bumps `rate_limit_blocks` by exactly one. -/
theorem check_rate_limit_frame_witness :
    (check_rate_limit 30 2 10000 1 rlC stats0).2.1.cooldowns = rlC.cooldowns
    ∧ (check_rate_limit 30 2 10000 1 rlC stats0).2.2.rate_limit_blocks
        = stats0.rate_limit_blocks + 1 := by
  have h := check_rate_limit_frame 30 2 10000 1 rlC stats0
  exact ⟨h.1, h.2.2.2.2.2.2.2.2 (by decide)⟩

theorem TTLCache.get_max_size [DecidableEq K] (c : TTLCache K V) (t : Int) (k : K) :
    ((c.get t k).2).max_size = c.max_size := by
  cases hf : c.cache.find? (fun e => decide (e.1 = k)) with
  | none => simp [TTLCache.get, hf]
  | some e =>
    simp only [TTLCache.get, hf]
    split
    · rfl
    · rfl

/-- Python's `str.strip()` with no arguments: remove leading and trailing
whitespace.  (Defined on the character list so that it reduces by
computation; `String.trim` of the core library is extensionally the same on
ASCII text but is defined by well-founded recursion.) -/
def pyStrip (s : String) : String :=
  ⟨(((s.data.dropWhile Char.isWhitespace).reverse).dropWhile Char.isWhitespace).reverse⟩

/-- A translation backend as a deterministic oracle: `some s` models a
successful `translate` call, `none` models any raised exception (network
failure, quota, unsupported pair).  Arguments: source language, target
language, text — as passed at lines 158-159 and 168-169. -/
def Backend : Type := String → String → String → Option String

/-- Truthiness of the Python expression `cached` at line 153, where `cached`
is `None` or a `str`: `None` and the empty string are falsy. -/
def truthyStr : Option String → Bool
  | none => false
  | some s => !(decide (s = ""))

/-- The state touched by `translate_text`: the module-level
`translation_cache` and `stats`. -/
structure TState where
  cache : TTLCache (String × String × String) String
  stats : Stats

/-- `translate_text` (lines 148-177): cache lookup keyed by
`(text.strip(), source_lang, target_lang)`; on a truthy hit, count a cache
hit and return it; otherwise try MyMemory then Google, each success counting
an API call and writing the result into the cache before returning; if both
fail, count an error and re-raise (`none`). -/
def translate_text (mm gg : Backend) (now : Int)
    (text source_lang target_lang : String) (st : TState) :
    Option String × TState :=
  let cache_key := (pyStrip text, source_lang, target_lang)
  let res := st.cache.get now cache_key
  if truthyStr res.1 then
    (res.1,
     ⟨res.2, { st.stats with cache_hits := st.stats.cache_hits + 1 }⟩)
  else
    match mm source_lang target_lang text with
    | some result =>
      (some result,
       ⟨res.2.set now cache_key result,
        { st.stats with api_calls := st.stats.api_calls + 1 }⟩)
    | none =>
      match gg source_lang target_lang text with
      | some result =>
        (some result,
         ⟨res.2.set now cache_key result,
          { st.stats with api_calls := st.stats.api_calls + 1 }⟩)
      | none =>
        (none, ⟨res.2, { st.stats with errors := st.stats.errors + 1 }⟩)

/-- C5: on a cache miss the backends are tried in fixed order — if MyMemory
succeeds its result is returned, if it fails the call falls through to
Google, and if both fail the call raises (`none`) with the error counter
incremented exactly once; on success by either backend the result is written
into the translation cache (resident under the key, with the new value and
timestamp) before being returned, and `api_calls` is incremented regardless
of which backend served it. -/
theorem translate_text_fallback (mm gg : Backend) (now : Int)
    (text src dst : String) (st : TState)
    (hmiss : truthyStr ((st.cache.get now (pyStrip text, src, dst)).1) = false)
    (hcap : 0 < st.cache.max_size) :
    (∀ r, mm src dst text = some r →
      (translate_text mm gg now text src dst st).1 = some r
      ∧ (translate_text mm gg now text src dst st).2.stats.api_calls
          = st.stats.api_calls + 1
      ∧ (translate_text mm gg now text src dst st).2.stats.errors = st.stats.errors
      ∧ (translate_text mm gg now text src dst st).2.cache.cache.find?
          (fun e => decide (e.1 = (pyStrip text, src, dst)))
          = some ((pyStrip text, src, dst), r, now))
    ∧ (∀ r, mm src dst text = none → gg src dst text = some r →
      (translate_text mm gg now text src dst st).1 = some r
      ∧ (translate_text mm gg now text src dst st).2.stats.api_calls
          = st.stats.api_calls + 1
      ∧ (translate_text mm gg now text src dst st).2.stats.errors = st.stats.errors
      ∧ (translate_text mm gg now text src dst st).2.cache.cache.find?
          (fun e => decide (e.1 = (pyStrip text, src, dst)))
          = some ((pyStrip text, src, dst), r, now))
    ∧ (mm src dst text = none → gg src dst text = none →
      (translate_text mm gg now text src dst st).1 = none
      ∧ (translate_text mm gg now text src dst st).2.stats.errors
          = st.stats.errors + 1
      ∧ (translate_text mm gg now text src dst st).2.stats.api_calls
          = st.stats.api_calls) := by
  have hcap2 : 0 < ((st.cache.get now (pyStrip text, src, dst)).2).max_size := by
    rw [TTLCache.get_max_size]
    exact hcap
  refine ⟨?_, ?_, ?_⟩
  · intro r hmm
    have hmain : translate_text mm gg now text src dst st
        = (some r,
           ⟨((st.cache.get now (pyStrip text, src, dst)).2).set now (pyStrip text, src, dst) r,
            { st.stats with api_calls := st.stats.api_calls + 1 }⟩) := by
      simp only [translate_text, hmiss, Bool.false_eq_true, if_false, hmm]
    rw [hmain]
    exact ⟨rfl, rfl, rfl, set_find _ now _ r hcap2⟩
  · intro r hmm hgg
    have hmain : translate_text mm gg now text src dst st
        = (some r,
           ⟨((st.cache.get now (pyStrip text, src, dst)).2).set now (pyStrip text, src, dst) r,
            { st.stats with api_calls := st.stats.api_calls + 1 }⟩) := by
      simp only [translate_text, hmiss, Bool.false_eq_true, if_false, hmm, hgg]
    rw [hmain]
    exact ⟨rfl, rfl, rfl, set_find _ now _ r hcap2⟩
  · intro hmm hgg
    have hmain : translate_text mm gg now text src dst st
        = (none,
           ⟨(st.cache.get now (pyStrip text, src, dst)).2,
            { st.stats with errors := st.stats.errors + 1 }⟩) := by
      simp only [translate_text, hmiss, Bool.false_eq_true, if_false, hmm, hgg]
    rw [hmain]
    exact ⟨rfl, rfl, rfl⟩

/-- Fresh translation state: empty cache with the program's capacity and TTL,
zero counters. -/
def stEmpty : TState := ⟨⟨[], CACHE_MAX_SIZE, CACHE_TTL_SECONDS⟩, stats0⟩

/-- Backend oracle that always succeeds with "hello". -/
def bOk : Backend := fun _ _ _ => some "hello"

/-- Backend oracle that always raises. -/
def bFail : Backend := fun _ _ _ => none

/-- Witness for C5: on a miss, a succeeding MyMemory serves the result; with
MyMemory failing, Google serves it; with both failing the call raises and
counts one error. -/
theorem translate_text_fallback_witness :
    (translate_text bOk bFail 0 "bonjour" "fr" "en" stEmpty).1 = some "hello"
    ∧ (translate_text bOk bFail 0 "bonjour" "fr" "en" stEmpty).2.stats.api_calls = 1
    ∧ (translate_text bFail bOk 0 "bonjour" "fr" "en" stEmpty).1 = some "hello"
    ∧ (translate_text bFail bFail 0 "bonjour" "fr" "en" stEmpty).1 = none
    ∧ (translate_text bFail bFail 0 "bonjour" "fr" "en" stEmpty).2.stats.errors = 1 := by
  have h1 := translate_text_fallback bOk bFail 0 "bonjour" "fr" "en" stEmpty
    (by decide) (by decide)
  have h2 := translate_text_fallback bFail bOk 0 "bonjour" "fr" "en" stEmpty
    (by decide) (by decide)
  have h3 := translate_text_fallback bFail bFail 0 "bonjour" "fr" "en" stEmpty
    (by decide) (by decide)
  have g1 := h1.1 "hello" rfl
  have g2 := h2.2.1 "hello" rfl rfl
  have g3 := h3.2.2 rfl rfl
  exact ⟨g1.1, g1.2.1, g2.1, g3.1, g3.2.1⟩

/-- C10 (implicit): a cached empty string is treated as a miss — the
cache-hit counter is untouched and the backends are consulted again — while
a stored non-empty value is the only kind of lookup that is returned as a
cache hit (counter incremented, value returned unchanged). -/
theorem empty_cached_value_is_miss (mm gg : Backend) (now : Int)
    (text src dst : String) (st : TState) :
    ((st.cache.get now (pyStrip text, src, dst)).1 = some "" →
      (translate_text mm gg now text src dst st).2.stats.cache_hits
          = st.stats.cache_hits
      ∧ (∀ r, mm src dst text = some r →
          (translate_text mm gg now text src dst st).1 = some r
          ∧ (translate_text mm gg now text src dst st).2.stats.api_calls
              = st.stats.api_calls + 1))
    ∧ (∀ v, (st.cache.get now (pyStrip text, src, dst)).1 = some v → v ≠ "" →
        (translate_text mm gg now text src dst st).1 = some v
        ∧ (translate_text mm gg now text src dst st).2.stats.cache_hits
            = st.stats.cache_hits + 1) := by
  constructor
  · intro hempty
    have hmiss : truthyStr ((st.cache.get now (pyStrip text, src, dst)).1) = false := by
      rw [hempty]
      decide
    constructor
    · cases hmm : mm src dst text with
      | some r =>
        have hmain : (translate_text mm gg now text src dst st).2.stats
            = { st.stats with api_calls := st.stats.api_calls + 1 } := by
          simp only [translate_text, hmiss, Bool.false_eq_true, if_false, hmm]
        rw [hmain]
      | none =>
        cases hgg : gg src dst text with
        | some r =>
          have hmain : (translate_text mm gg now text src dst st).2.stats
              = { st.stats with api_calls := st.stats.api_calls + 1 } := by
            simp only [translate_text, hmiss, Bool.false_eq_true, if_false, hmm, hgg]
          rw [hmain]
        | none =>
          have hmain : (translate_text mm gg now text src dst st).2.stats
              = { st.stats with errors := st.stats.errors + 1 } := by
            simp only [translate_text, hmiss, Bool.false_eq_true, if_false, hmm, hgg]
          rw [hmain]
    · intro r hmm
      have hmain : translate_text mm gg now text src dst st
          = (some r,
             ⟨((st.cache.get now (pyStrip text, src, dst)).2).set now (pyStrip text, src, dst) r,
              { st.stats with api_calls := st.stats.api_calls + 1 }⟩) := by
        simp only [translate_text, hmiss, Bool.false_eq_true, if_false, hmm]
      rw [hmain]
      exact ⟨rfl, rfl⟩
  · intro v hv hne
    have hhit : truthyStr ((st.cache.get now (pyStrip text, src, dst)).1) = true := by
      rw [hv]
      simp [truthyStr, hne]
    have hmain : translate_text mm gg now text src dst st
        = ((st.cache.get now (pyStrip text, src, dst)).1,
           ⟨(st.cache.get now (pyStrip text, src, dst)).2,
            { st.stats with cache_hits := st.stats.cache_hits + 1 }⟩) := by
      simp only [translate_text, hhit, if_true]
    rw [hmain]
    exact ⟨hv, rfl⟩

/-- Translation state whose cache holds the empty string for the key
("hi", "en", "fr") and "salut" for ("hello", "en", "fr"), both fresh. -/
def stC10 : TState :=
  ⟨⟨[(("hi", "en", "fr"), "", 0), (("hello", "en", "fr"), "salut", 0)], 2000, 3600⟩, stats0⟩

/-- Witness for C10: the empty cached value is re-fetched from the backend
with no cache-hit count, while the non-empty cached value is served as a hit. -/
theorem empty_cached_value_is_miss_witness :
    (translate_text bOk bFail 1 "hi" "en" "fr" stC10).2.stats.cache_hits = 0
    ∧ (translate_text bOk bFail 1 "hi" "en" "fr" stC10).1 = some "hello"
    ∧ (translate_text bOk bFail 1 "hello" "en" "fr" stC10).1 = some "salut"
    ∧ (translate_text bOk bFail 1 "hello" "en" "fr" stC10).2.stats.cache_hits = 1 := by
  have h1 := (empty_cached_value_is_miss bOk bFail 1 "hi" "en" "fr" stC10).1 (by decide)
  have h2 := (empty_cached_value_is_miss bOk bFail 1 "hello" "en" "fr" stC10).2
    "salut" (by decide) (by decide)
  exact ⟨h1.1, (h1.2 "hello" rfl).1, h2.1, h2.2⟩

/-- Configured target languages, the keys of `TARGET_LANGUAGES`
(lines 46-50) in dict order. -/
def TARGET_LANGUAGES : List String := ["en", "fr", "es"]

/-- Target-set computation of `on_message` (lines 233-236): filter the
configured targets to those different from the source language, but if the
source language is not itself a configured target, translate into all
configured targets. -/
def langs_to_translate (targets : List String) (source_lang : String) : List String :=
  if source_lang ∈ targets then
    targets.filter (fun lang => !decide (lang = source_lang))
  else
    targets

/-- C6: the attempted language set is the configured target set minus the
source language when the source is a configured target, and the whole
configured target set otherwise; in particular with targets {en, fr, es},
source "fr" yields {en, es} and source "de" yields {en, fr, es}. -/
theorem langs_to_translate_spec :
    (∀ (targets : List String) (s x : String),
      x ∈ langs_to_translate targets s ↔ (x ∈ targets ∧ (s ∈ targets → x ≠ s)))
    ∧ langs_to_translate TARGET_LANGUAGES "fr" = ["en", "es"]
    ∧ langs_to_translate TARGET_LANGUAGES "de" = ["en", "fr", "es"] := by
  refine ⟨?_, rfl, rfl⟩
  intro targets s x
  unfold langs_to_translate
  by_cases hs : s ∈ targets
  · rw [if_pos hs]
    simp [List.mem_filter, hs]
  · rw [if_neg hs]
    constructor
    · intro hx
      refine ⟨hx, fun hsin => absurd hsin hs⟩
    · intro hx
      exact hx.1

/-- Witness for C6: membership instance of the general characterisation —
"en" is attempted for source "fr" under the configured targets. -/
theorem langs_to_translate_spec_witness :
    "en" ∈ langs_to_translate TARGET_LANGUAGES "fr" := by
  exact (langs_to_translate_spec.1 TARGET_LANGUAGES "fr" "en").mpr
    ⟨by decide, fun _ => by decide⟩

/-- Python's `str.startswith(p)`, on character lists so it reduces by
computation. -/
def pyStartsWith (s p : String) : Bool := p.data.isPrefixOf s.data

/-- Minimum message length constant `MIN_MESSAGE_LENGTH` (line 38). -/
def MIN_MESSAGE_LENGTH : Nat := 15

/-- Maximum message length constant `MAX_MESSAGE_LENGTH` (line 39). -/
def MAX_MESSAGE_LENGTH : Nat := 1500

/-- The tuple of forbidden opening tokens at line 186. -/
def BLOCKED_STARTS : List String :=
  ["!", "/", "http://", "https://", "<@", "<#", "<:", "```"]

/-- The fields of `discord.Message` that `should_translate` reads: the
author's bot flag and the raw text. -/
structure ChatMessage where
  author_bot : Bool
  content : String

/-- `should_translate` (lines 180-190): reject bot authors, strip the text,
bound its length to [15, 1500], reject the forbidden opening tokens, and
require at least one alphabetic character once spaces are removed
(`text.replace(' ', '')` removes every space).  The alphabetic test at line
188 is Python's Unicode-wide `str.isalpha`; its per-character truth is taken
as the parameter `isalpha` (an oracle for the Unicode character database),
so the embedding is exact on every script.  On ASCII, `str.isalpha` agrees
with `Char.isAlpha`, which the ASCII test cases below assume. -/
def should_translate (isalpha : Char → Bool) (m : ChatMessage) : Bool :=
  if m.author_bot then false
  else if (pyStrip m.content).length < MIN_MESSAGE_LENGTH
      ∨ (pyStrip m.content).length > MAX_MESSAGE_LENGTH then false
  else if BLOCKED_STARTS.any (fun p => pyStartsWith (pyStrip m.content) p) then false
  else if ((pyStrip m.content).data.filter (fun c => !decide (c = ' '))).all
      (fun c => !(isalpha c)) then false
  else true

/-- C7: `should_translate` accepts exactly the messages whose author is not
a bot, whose stripped text has length within [15, 1500], does not open with
a forbidden token, and contains an alphabetic character once spaces are
removed — proved for every alphabetic oracle, hence in particular for the
Unicode table `str.isalpha` uses; it is a pure predicate.  The particular
cases of the claim are included: stripped length 14 is rejected (for every
oracle), alphabetic length 15 accepted and all-punctuation of valid length
rejected (for every oracle agreeing with `str.isalpha` on ASCII), a leading
"/" rejected for every message and oracle, and a bot author always
rejected. -/
theorem should_translate_spec :
    (∀ (isalpha : Char → Bool) (m : ChatMessage),
      should_translate isalpha m = true ↔
        (m.author_bot = false
         ∧ MIN_MESSAGE_LENGTH ≤ (pyStrip m.content).length
         ∧ (pyStrip m.content).length ≤ MAX_MESSAGE_LENGTH
         ∧ (∀ p ∈ BLOCKED_STARTS, pyStartsWith (pyStrip m.content) p = false)
         ∧ (∃ c ∈ (pyStrip m.content).data.filter (fun c => !decide (c = ' ')),
              isalpha c = true)))
    ∧ (∀ isalpha : Char → Bool,
        should_translate isalpha ⟨false, "abcdefghijklmn"⟩ = false)
    ∧ (∀ isalpha : Char → Bool, (∀ c : Char, c.toNat < 128 → isalpha c = c.isAlpha) →
        should_translate isalpha ⟨false, "abcdefghijklmno"⟩ = true
        ∧ should_translate isalpha ⟨false, "?!?!?!?!?!?!?!?!"⟩ = false)
    ∧ (∀ (isalpha : Char → Bool) (m : ChatMessage),
        pyStartsWith (pyStrip m.content) "/" = true →
        should_translate isalpha m = false)
    ∧ (∀ (isalpha : Char → Bool) (m : ChatMessage), m.author_bot = true →
        should_translate isalpha m = false) := by
  refine ⟨?_, ?_, ?_, ?_, ?_⟩
  · intro isalpha m
    unfold should_translate
    by_cases hb : m.author_bot = true
    · rw [if_pos hb]
      simp [hb]
    · rw [if_neg hb]
      by_cases hlen : (pyStrip m.content).length < MIN_MESSAGE_LENGTH
          ∨ (pyStrip m.content).length > MAX_MESSAGE_LENGTH
      · rw [if_pos hlen]
        constructor
        · intro h
          exact absurd h (by simp)
        · rintro ⟨-, h1, h2, -, -⟩
          exfalso
          omega
      · rw [if_neg hlen]
        by_cases hpre : BLOCKED_STARTS.any
            (fun p => pyStartsWith (pyStrip m.content) p) = true
        · rw [if_pos hpre]
          constructor
          · intro h
            exact absurd h (by simp)
          · rintro ⟨-, -, -, hblock, -⟩
            rcases List.any_eq_true.mp hpre with ⟨p, hp, hsw⟩
            have hfalse := hblock p hp
            rw [hfalse] at hsw
            cases hsw
        · rw [if_neg hpre]
          by_cases hall : ((pyStrip m.content).data.filter
              (fun c => !decide (c = ' '))).all (fun c => !(isalpha c)) = true
          · rw [if_pos hall]
            constructor
            · intro h
              exact absurd h (by simp)
            · rintro ⟨-, -, -, -, c, hc, hca⟩
              have hnot := List.all_eq_true.mp hall c hc
              rw [hca] at hnot
              cases hnot
          · rw [if_neg hall]
            constructor
            · intro _
              push_neg at hlen
              refine ⟨by simpa using hb, by omega, by omega, ?_, ?_⟩
              · intro p hp
                by_contra hq
                exact hpre (List.any_eq_true.mpr ⟨p, hp, by simpa using hq⟩)
              · by_contra hex
                push_neg at hex
                apply hall
                rw [List.all_eq_true]
                intro c hc
                simpa using hex c hc
            · intro _
              rfl
  · intro isalpha
    unfold should_translate
    rw [if_neg (by decide), if_pos (by decide)]
  · intro isalpha hascii
    constructor
    · unfold should_translate
      have hnotall : ¬ (((pyStrip "abcdefghijklmno").data.filter
          (fun c => !decide (c = ' '))).all (fun c => !(isalpha c)) = true) := by
        intro hall
        have ha : (!(isalpha 'a')) = true := List.all_eq_true.mp hall 'a' (by decide)
        rw [hascii 'a' (by decide)] at ha
        exact absurd ha (by decide)
      rw [if_neg (by decide), if_neg (by decide), if_neg (by decide), if_neg hnotall]
    · unfold should_translate
      have hall : (((pyStrip "?!?!?!?!?!?!?!?!").data.filter
          (fun c => !decide (c = ' '))).all (fun c => !(isalpha c)) = true) := by
        rw [List.all_eq_true]
        intro c hc
        have hmem : c = '?' ∨ c = '!' := by
          simp only [pyStrip, List.mem_filter] at hc
          have := hc.1
          simp at this
          tauto
        show (!(isalpha c)) = true
        rcases hmem with h | h
        · rw [h, hascii '?' (by decide)]
          decide
        · rw [h, hascii '!' (by decide)]
          decide
      rw [if_neg (by decide), if_neg (by decide), if_neg (by decide), if_pos hall]
  · intro isalpha m hsw
    unfold should_translate
    by_cases hb : m.author_bot = true
    · rw [if_pos hb]
    · rw [if_neg hb]
      by_cases hlen : (pyStrip m.content).length < MIN_MESSAGE_LENGTH
          ∨ (pyStrip m.content).length > MAX_MESSAGE_LENGTH
      · rw [if_pos hlen]
      · rw [if_neg hlen]
        rw [if_pos (List.any_eq_true.mpr ⟨"/", by decide, hsw⟩)]
  · intro isalpha m hb
    unfold should_translate
    rw [if_pos hb]

/-- The Unicode alphabetic table restricted to ASCII plus the base Cyrillic
block U+0410 to U+044F — the fragment of `str.isalpha` the witness messages
touch. -/
def cyrAlpha : Char → Bool :=
  fun c => c.isAlpha || (decide (0x410 ≤ c.toNat) && decide (c.toNat ≤ 0x44F))

/-- Witness for C7: a concrete French message and a concrete all-Cyrillic
message are accepted (the latter under the oracle covering the Cyrillic
block, as Python's `str.isalpha` does), a slash command is rejected, and the
length-15 alphabetic message is accepted under any oracle that agrees with
`str.isalpha` on ASCII. -/
theorem should_translate_spec_witness :
    should_translate Char.isAlpha
      ⟨false, "Bonjour tout le monde, comment allez-vous ?"⟩ = true
    ∧ should_translate cyrAlpha ⟨false, "Привет как дела сегодня"⟩ = true
    ∧ should_translate Char.isAlpha
      ⟨false, "/help me with this very long command"⟩ = false
    ∧ should_translate cyrAlpha ⟨false, "abcdefghijklmno"⟩ = true := by
  have h := should_translate_spec
  have hcyr : ∀ c : Char, c.toNat < 128 → cyrAlpha c = c.isAlpha := by
    intro c hc
    have h1 : decide (0x410 ≤ c.toNat) = false := decide_eq_false (by omega)
    simp [cyrAlpha, h1]
  refine ⟨?_, ?_, ?_, ?_⟩
  · exact (h.1 Char.isAlpha
      ⟨false, "Bonjour tout le monde, comment allez-vous ?"⟩).mpr
      ⟨rfl, by decide, by decide, by decide, ⟨'B', by decide, by decide⟩⟩
  · exact (h.1 cyrAlpha ⟨false, "Привет как дела сегодня"⟩).mpr
      ⟨rfl, by decide, by decide, by decide, ⟨'П', by decide, by decide⟩⟩
  · exact h.2.2.2.1 Char.isAlpha
      ⟨false, "/help me with this very long command"⟩ (by decide)
  · exact (h.2.2.1 cyrAlpha hcyr).1

/-- Outcome of `message.reply(...)` at line 261: success, a permission
rejection (`discord.Forbidden`), or any other HTTP error
(`discord.HTTPException`). -/
inductive DeliveryOutcome where
  | ok
  | forbidden
  | httpError

/-- The delivery-and-commit tail of `on_message` (lines 260-271): on a
successful reply, commit the rate limiter and add the number of produced
languages to `translations_total`; on `Forbidden`, only log; on
`HTTPException`, log and count one error.  No retry in any branch. -/
def deliver_and_commit (outcome : DeliveryOutcome) (now : Int) (author_id : Nat)
    (nLangs : Nat) (rl : RL) (st : Stats) : RL × Stats :=
  match outcome with
  | .ok =>
    (update_rate_limit now author_id rl,
     { st with translations_total := st.translations_total + nLangs })
  | .forbidden => (rl, st)
  | .httpError => (rl, { st with errors := st.errors + 1 })

/-- Counterexample for C8: on a permission rejection the code leaves the
stats — including the error counter — completely unchanged, contradicting
the claim that a delivery failure is counted in the error statistic. -/
theorem delivery_forbidden_counterexample :
    (deliver_and_commit .forbidden 100 1 2 rl0 stats0).2 = stats0
    ∧ ¬ ((deliver_and_commit .forbidden 100 1 2 rl0 stats0).2.errors
          = stats0.errors + 1) := by
  constructor
  · rfl
  · decide

/-- C8 (amended): the rate-limiter commit and the translations-total
increment (by the number of produced languages) happen iff delivery
succeeds; on either delivery failure the rate limiter and the translations
counter are unchanged and there is no retry; an HTTP error is counted in the
error statistic, but a permission rejection is only logged and leaves all
counters unchanged. -/
theorem delivery_commit_spec (now : Int) (a : Nat) (n : Nat) (rl : RL) (st : Stats) :
    ((deliver_and_commit .ok now a n rl st).1.cooldowns a = now
      ∧ (deliver_and_commit .ok now a n rl st).1.counts a = rl.counts a ++ [now]
      ∧ (deliver_and_commit .ok now a n rl st).2.translations_total
          = st.translations_total + n
      ∧ (deliver_and_commit .ok now a n rl st).2.errors = st.errors)
    ∧ (deliver_and_commit .forbidden now a n rl st) = (rl, st)
    ∧ ((deliver_and_commit .httpError now a n rl st).1 = rl
      ∧ (deliver_and_commit .httpError now a n rl st).2.translations_total
          = st.translations_total
      ∧ (deliver_and_commit .httpError now a n rl st).2.errors = st.errors + 1) := by
  refine ⟨⟨?_, ?_, rfl, rfl⟩, rfl, rfl, rfl, rfl⟩
  · show (if a = a then now else rl.cooldowns a) = now
    rw [if_pos rfl]
  · show (if a = a then rl.counts a ++ [now] else rl.counts a) = rl.counts a ++ [now]
    rw [if_pos rfl]

/-- Python's `str.lower()` modelled on the character list (exact on the
ASCII language codes this program handles). -/
def pyLower (s : String) : String := ⟨s.data.map Char.toLower⟩

theorem char_toLower_toLower (c : Char) : c.toLower.toLower = c.toLower := by
  by_cases h : c.toNat ≥ 65 ∧ c.toNat ≤ 90
  · have h1 : c.toLower = Char.ofNat (c.toNat + 32) := by
      simp only [Char.toLower]
      rw [if_pos h]
    have hv : Nat.isValidChar (c.toNat + 32) := Or.inl (by omega)
    have ht : (Char.ofNat (c.toNat + 32)).toNat = c.toNat + 32 := by
      rw [Char.ofNat, dif_pos hv]
      rfl
    rw [h1]
    simp only [Char.toLower, ht]
    rw [if_neg (by omega)]
  · have h1 : c.toLower = c := by
      simp only [Char.toLower]
      rw [if_neg h]
    rw [h1, h1]

theorem pyLower_idem (s : String) : pyLower (pyLower s) = pyLower s := by
  show (⟨((s.data.map Char.toLower).map Char.toLower)⟩ : String)
      = ⟨s.data.map Char.toLower⟩
  have hcomp : Char.toLower ∘ Char.toLower = Char.toLower := funext char_toLower_toLower
  rw [List.map_map, hcomp]

/-- `normalize_lang` (lines 143-145): lower-case the code and send the four
mapped legacy codes to their canonical form; anything else passes through
lower-cased.  The dict lookup with a default becomes a chain of equality
tests against the four keys. -/
def normalize_lang (lang : String) : String :=
  if pyLower lang = "zh-cn" then "zh"
  else if pyLower lang = "zh-tw" then "zh"
  else if pyLower lang = "pt-br" then "pt"
  else if pyLower lang = "iw" then "he"
  else pyLower lang

theorem normalize_lang_cases (x : String) :
    normalize_lang x = "zh" ∨ normalize_lang x = "pt" ∨ normalize_lang x = "he"
    ∨ (normalize_lang x = pyLower x ∧ pyLower x ≠ "zh-cn" ∧ pyLower x ≠ "zh-tw"
       ∧ pyLower x ≠ "pt-br" ∧ pyLower x ≠ "iw") := by
  unfold normalize_lang
  split_ifs with h1 h2 h3 h4
  · exact Or.inl rfl
  · exact Or.inl rfl
  · exact Or.inr (Or.inl rfl)
  · exact Or.inr (Or.inr (Or.inl rfl))
  · exact Or.inr (Or.inr (Or.inr ⟨rfl, h1, h2, h3, h4⟩))

/-- C9: `normalize_lang` is idempotent; an already-canonical code (a
lower-case code that is not one of the four mapped legacy keys) is returned
unchanged; the mapped legacy codes go to their canonical codes (including
with upper-case letters, since the code lowercases first); and every
unmapped code passes through lower-cased. -/
theorem normalize_lang_spec :
    (∀ x : String, normalize_lang (normalize_lang x) = normalize_lang x)
    ∧ (∀ x : String, pyLower x = x →
        pyLower x ≠ "zh-cn" → pyLower x ≠ "zh-tw" → pyLower x ≠ "pt-br" →
        pyLower x ≠ "iw" → normalize_lang x = x)
    ∧ normalize_lang "zh-CN" = "zh" ∧ normalize_lang "zh-tw" = "zh"
    ∧ normalize_lang "pt-BR" = "pt" ∧ normalize_lang "iw" = "he"
    ∧ (∀ x : String,
        pyLower x ≠ "zh-cn" → pyLower x ≠ "zh-tw" → pyLower x ≠ "pt-br" →
        pyLower x ≠ "iw" → normalize_lang x = pyLower x) := by
  refine ⟨?_, ?_, by decide, by decide, by decide, by decide, ?_⟩
  · intro x
    rcases normalize_lang_cases x with h | h | h | ⟨h, h1, h2, h3, h4⟩
    · rw [h]
      decide
    · rw [h]
      decide
    · rw [h]
      decide
    · rw [h]
      unfold normalize_lang
      rw [pyLower_idem]
      rw [if_neg h1, if_neg h2, if_neg h3, if_neg h4]
  · intro x hfix h1 h2 h3 h4
    unfold normalize_lang
    rw [if_neg h1, if_neg h2, if_neg h3, if_neg h4]
    exact hfix
  · intro x h1 h2 h3 h4
    unfold normalize_lang
    rw [if_neg h1, if_neg h2, if_neg h3, if_neg h4]

/-- Witness for C9: the canonical code "fr" is a fixed point, and the
unmapped code "DE" passes through lower-cased. -/
theorem normalize_lang_spec_witness :
    normalize_lang "fr" = "fr" ∧ normalize_lang "DE" = "de" := by
  have h := normalize_lang_spec
  constructor
  · exact h.2.1 "fr" (by decide) (by decide) (by decide) (by decide) (by decide)
  · have h2 := h.2.2.2.2.2.2 "DE" (by decide) (by decide) (by decide) (by decide)
    rw [h2]
    decide
